import Mathlib

/-!
Verification of the auction state machine of the `auction_agents` repository.

The development shallowly embeds the bid-adjudication engine
(`src/trade_master.py`), the router (`src/host.py`) and the raise schedule
(`src/utils.py : get_raise_amount`) over the entity model of
`src/utils.py`.  Monetary amounts are modelled as rationals, the Python
dict state as a structure, and the per-team dict entries
(`CSK`, `CSK_Budget`, ...) as total functions on the team enumeration.
The external LLM rationale call (`reasoner.generate_purchase_reason`) is an
opaque parameter; raising an exception is modelled by `Except.error`.
-/

set_option maxHeartbeats 1000000

namespace AuctionSim

/-- The ten franchise literals of `utils.py`. -/
inductive Team
  | CSK | DC | GT | KKR | LSG | MI | PBKS | RR | RCB | SRH
deriving DecidableEq, Repr, Fintype

/-- An auctionable lot (`utils.Player`).  The `team_bid_history` log dict is
omitted: no routing or adjudication logic reads it. -/
structure Player where
  name : String
  role : String
  base_price : ℚ
  previous_sold_price : ℚ
  category : String
  experience : String
  set : String
  status : Bool := false
  sold_price : ℚ := 0
  sold_team : Option Team := none
  reason_for_purchase : Option String := none
deriving DecidableEq, Repr

/-- The leading bid for the active lot (`utils.CurrentBidInfo`). -/
structure CurrentBidInfo where
  player : Player
  team : Team
  current_bid_amount : ℚ
  current_raise_amount : ℚ
deriving DecidableEq, Repr

/-- A per-round proposed bid (`utils.CompetitiveBidInfo`). -/
structure CompetitiveBidInfo where
  player : Player
  team : Team
  is_raise : Bool := false
  is_normal : Bool := true
  raised_amount : ℚ := 0
  reason : String := ""
deriving DecidableEq, Repr

/-- The shared auction state (`utils.AgentState`).  `OtherTeamBidding` is the
Python dict in insertion order as an association list; the ten per-team
player lists and the ten `{team}_Budget` keys are the functions `holdings`
and `budgets` (every key is always present, so the `in state` membership
tests of `trade_master.py` always succeed); `Messages` keeps the message
texts only.  The catalog fields `RemainingPlayers` and `CurrentSet` are not
read by `host` or `trademaster` and are omitted. -/
structure AgentState where
  RemainingSets : List String
  RemainingPlayersInSet : Option (List Player)
  AuctionStatus : Bool
  CurrentPlayer : Option Player
  CurrentBid : Option CurrentBidInfo
  OtherTeamBidding : List (Team × CompetitiveBidInfo)
  Round : Nat
  holdings : Team → List Player
  budgets : Team → ℚ
  UnsoldPlayers : List Player
  Messages : List String

/-- The raise schedule (`utils.get_raise_amount`): piecewise increment by
price band. -/
def get_raise_amount (current_price : ℚ) : ℚ :=
  if current_price < 2 then 0.25
  else if current_price < 5 then 0.75
  else 1.5

/-- The three routing targets returned by `host.host`
(`"host_assistant"`, `"bidder_pool"`, `"__end__"`). -/
inductive Route
  | host_assistant
  | bidder_pool
  | endAuction
deriving DecidableEq, Repr

/-- Python truthiness of an optional list: `None` and `[]` are both falsy. -/
def pyFalsyOptList : Option (List Player) → Bool
  | none => true
  | some l => l.isEmpty

/-- The router (`host.host`).  The guard raising `ValueError` on a falsy
state dict cannot fire on the typed state, and the log output is dropped;
otherwise the function is a pure read of four state fields. -/
def host (s : AgentState) : Route :=
  if s.RemainingSets.isEmpty && pyFalsyOptList s.RemainingPlayersInSet
      && s.CurrentPlayer.isNone then
    Route.endAuction
  else if s.AuctionStatus = false then
    Route.host_assistant
  else
    Route.bidder_pool

/-- One `host` call as observed from outside: the routing decision together
with the state after the call.  The source function only reads the state
(`state.get`) and writes log lines, so the post-state component is the
input state itself. -/
def hostStep (s : AgentState) : Route × AgentState := (host s, s)

/-- The router rule of spec section 4.4, stated from the spec's words, to be
compared with the source function `host`: (1) no remaining categories and no
remaining lots in the active category and no active lot gives End; (2) else
an inactive auction requests a new lot; (3) else collect bids. -/
def routerSpecRule (s : AgentState) : Route :=
  if s.RemainingSets = [] ∧
      (s.RemainingPlayersInSet = none ∨ s.RemainingPlayersInSet = some []) ∧
      s.CurrentPlayer = none then
    Route.endAuction
  else if s.AuctionStatus = false then
    Route.host_assistant
  else
    Route.bidder_pool

/-- The single log entry `trademaster` leaves in `Messages`; the log text
itself is abstracted. -/
def trademasterLog : String := "TRADEMASTER - Processing Bids"

/-- Candidate computation when no current bid exists
(`trade_master.py` lines 139-164): starting from the base price, a normal
raise bids the base price itself, a custom raise must be nonzero and meet
the minimum-raise schedule; the candidate must be at least the base price
and within the team budget. -/
def validBidsFirst (s : AgentState) (current_bid_amount : ℚ) :
    List (Team × CompetitiveBidInfo × ℚ) :=
  s.OtherTeamBidding.filterMap fun tb =>
    let team_budget := s.budgets tb.1
    let competitive_bid := tb.2
    let bid_amount? : Option ℚ :=
      if competitive_bid.is_raise then
        if competitive_bid.is_normal then
          some current_bid_amount
        else
          let raised := competitive_bid.raised_amount
          let min_required := get_raise_amount current_bid_amount
          if raised ≠ 0 ∧ min_required ≤ raised then
            some (current_bid_amount + raised)
          else
            none
      else
        none
    match bid_amount? with
    | some bid_amount =>
        if current_bid_amount ≤ bid_amount ∧ bid_amount ≤ team_budget then
          some (tb.1, competitive_bid, bid_amount)
        else
          none
    | none => none

/-- Candidate computation when a current bid exists
(`trade_master.py` lines 217-242): a normal raise adds the schedule
increment, a custom raise must be nonzero and meet the minimum-raise
schedule; the candidate must strictly exceed the current bid and stay
within the team budget. -/
def validBidsExisting (s : AgentState) (current_bid_amount : ℚ) :
    List (Team × CompetitiveBidInfo × ℚ) :=
  s.OtherTeamBidding.filterMap fun tb =>
    let team_budget := s.budgets tb.1
    let competitive_bid := tb.2
    let bid_amount? : Option ℚ :=
      if competitive_bid.is_raise then
        if competitive_bid.is_normal then
          some (current_bid_amount + get_raise_amount current_bid_amount)
        else
          let raised := competitive_bid.raised_amount
          let min_required := get_raise_amount current_bid_amount
          if raised ≠ 0 ∧ min_required ≤ raised then
            some (current_bid_amount + raised)
          else
            none
      else
        none
    match bid_amount? with
    | some bid_amount =>
        if current_bid_amount < bid_amount ∧ bid_amount ≤ team_budget then
          some (tb.1, competitive_bid, bid_amount)
        else
          none
    | none => none

/-- One update step of the best-bid loops of `trade_master.py`
(lines 172-185 and 250-263): keep the entry with the larger amount,
first seen wins ties. -/
def pickStep (best : Option (Team × CompetitiveBidInfo × ℚ))
    (e : Team × CompetitiveBidInfo × ℚ) : Option (Team × CompetitiveBidInfo × ℚ) :=
  match best with
  | none => some e
  | some b => if e.2.2 > b.2.2 then some e else some b

/-- The second selection loop: best amount among all valid bids. -/
def pickAnyBest (valid : List (Team × CompetitiveBidInfo × ℚ))
    (acc : Option (Team × CompetitiveBidInfo × ℚ)) :
    Option (Team × CompetitiveBidInfo × ℚ) :=
  valid.foldl pickStep acc

/-- The first selection loop: best amount among custom raises only
(`is_normal = false`). -/
def pickCustomBest (valid : List (Team × CompetitiveBidInfo × ℚ))
    (acc : Option (Team × CompetitiveBidInfo × ℚ)) :
    Option (Team × CompetitiveBidInfo × ℚ) :=
  valid.foldl (fun best e => if e.2.1.is_normal then best else pickStep best e) acc

/-- Winner selection of `trade_master.py`: prefer the best custom raise,
otherwise take the best valid bid of any kind. -/
def pickBest (valid : List (Team × CompetitiveBidInfo × ℚ)) :
    Option (Team × CompetitiveBidInfo × ℚ) :=
  match pickCustomBest valid none with
  | some b => some b
  | none => pickAnyBest valid none

/-- Finalize the sale (`trade_master.py` lines 80-113 and 288-315): mark the
lot sold, append it to the winning team's list, debit that team's budget,
and reset the round state.  `reason` is the outcome of the external
rationale call: `some` text on success (case 2 only), `none` on its caught
exception and on the case-3 path, which never calls it. -/
def finalizeSale (s : AgentState) (current_player : Player) (winning_team : Team)
    (final_price : ℚ) (reason : Option String) : AgentState :=
  let player : Player :=
    { current_player with
      status := true
      sold_price := final_price
      sold_team := some winning_team
      reason_for_purchase :=
        match reason with
        | some txt => some txt
        | none => current_player.reason_for_purchase }
  { s with
    holdings := fun t => if t = winning_team then s.holdings t ++ [player] else s.holdings t
    budgets := fun t => if t = winning_team then s.budgets t - final_price else s.budgets t
    CurrentPlayer := none
    CurrentBid := none
    Round := 0
    OtherTeamBidding := []
    AuctionStatus := false
    Messages := [trademasterLog] }

/-- The adjudicator (`trade_master.py : trademaster`).  `reasoner` stands for
the external `generate_purchase_reason` collaborator (an LLM call), returning
`some` text on success and `none` when it raises (the call is wrapped in
`try/except`).  A `none` input state models the falsy argument on which the
Python function raises `ValueError`; with a current bid present, the
finalize guard `current_player and current_bid_final and current_bid_final.team`
always holds, since the team literals are non-empty strings. -/
def trademaster (reasoner : AgentState → Player → Team → ℚ → Option String) :
    Option AgentState → Except String AgentState
  | none => .error "State cannot be None or empty."
  | some s =>
    match s.CurrentPlayer with
    | none =>
      -- no current player: log and return the state unchanged (lines 37-42)
      .ok { s with Messages := [trademasterLog] }
    | some current_player =>
      match s.CurrentBid, s.OtherTeamBidding with
      | none, [] =>
        -- Case 1: no bids at all, the player goes to UnsoldPlayers
        .ok { s with
          UnsoldPlayers := s.UnsoldPlayers ++ [current_player]
          CurrentPlayer := none
          AuctionStatus := false
          CurrentBid := none
          Round := 0
          OtherTeamBidding := []
          Messages := [trademasterLog] }
      | some current_bid, [] =>
        -- Case 2: no new bids this round, increment the round counter
        if s.Round + 1 > 2 then
          .ok (finalizeSale s current_player current_bid.team
            current_bid.current_bid_amount
            (reasoner s current_player current_bid.team current_bid.current_bid_amount))
        else
          .ok { s with
            Round := s.Round + 1
            OtherTeamBidding := []
            Messages := [trademasterLog] }
      | none, _ :: _ =>
        -- Case 3 with no current bid: select a first bid from the base price
        match pickBest (validBidsFirst s current_player.base_price) with
        | some (best_team, _, best_bid_amount) =>
          .ok { s with
            CurrentBid := some
              { player := current_player
                team := best_team
                current_bid_amount := best_bid_amount
                current_raise_amount := get_raise_amount best_bid_amount }
            Round := 0
            OtherTeamBidding := []
            Messages := [trademasterLog] }
        | none =>
          -- no valid first bid: only the bid dict and the log change
          .ok { s with
            OtherTeamBidding := []
            Messages := [trademasterLog] }
      | some current_bid, _ :: _ =>
        -- Case 3 with a current bid: process counter-bids
        match pickBest (validBidsExisting s current_bid.current_bid_amount) with
        | some (best_team, _, best_bid_amount) =>
          .ok { s with
            CurrentBid := some
              { player := current_player
                team := best_team
                current_bid_amount := best_bid_amount
                current_raise_amount := get_raise_amount best_bid_amount }
            Round := 0
            OtherTeamBidding := []
            Messages := [trademasterLog] }
        | none =>
          if s.Round + 1 > 2 then
            .ok (finalizeSale s current_player current_bid.team
              current_bid.current_bid_amount none)
          else
            .ok { s with
              Round := s.Round + 1
              OtherTeamBidding := []
              Messages := [trademasterLog] }

/-- A reasoner outcome standing for the exception branch of the
rationale call. -/
def rNone : AgentState → Player → Team → ℚ → Option String := fun _ _ _ _ => none

/-- Run the adjudicator with the exception-branch reasoner and keep the
resulting state. -/
def runTM (s : AgentState) : AgentState :=
  match trademaster rNone (some s) with
  | .ok s' => s'
  | .error _ => s

/-- A sample lot used by the concrete witness states. -/
def samplePlayer : Player :=
  { name := "Sample"
    role := "Batsman"
    base_price := 1
    previous_sold_price := 0
    category := "Star"
    experience := "capped"
    set := "SBC" }

/-- A baseline witness state: one active lot, no current bid, no proposed
bids, all budgets 100. -/
def baseState : AgentState :=
  { RemainingSets := ["SBC"]
    RemainingPlayersInSet := some []
    AuctionStatus := true
    CurrentPlayer := some samplePlayer
    CurrentBid := none
    OtherTeamBidding := []
    Round := 0
    holdings := fun _ => []
    budgets := fun _ => 100
    UnsoldPlayers := []
    Messages := [] }

/-- A current bid of 10 held by CSK. -/
def cbTen : CurrentBidInfo :=
  { player := samplePlayer, team := Team.CSK
    current_bid_amount := 10, current_raise_amount := 1.5 }

/-- A current bid of 2 held by CSK. -/
def cbTwo : CurrentBidInfo :=
  { player := samplePlayer, team := Team.CSK
    current_bid_amount := 2, current_raise_amount := 0.75 }

/-- A current bid of 1 held by CSK. -/
def cbOne : CurrentBidInfo :=
  { player := samplePlayer, team := Team.CSK
    current_bid_amount := 1, current_raise_amount := 0.25 }

/-- Witness state: current bid of 10, round counter at the limit, no new
bids this round. -/
def stateNoBids : AgentState :=
  { baseState with CurrentBid := some cbTen, Round := 2 }

/-- A custom raise of 0.2 by DC. -/
def lowCustomBid : CompetitiveBidInfo :=
  { player := samplePlayer, team := Team.DC
    is_raise := true, is_normal := false, raised_amount := 0.2 }

/-- Witness state: current bid at 2.0, one proposed custom raise of 0.2. -/
def stateLowRaise : AgentState :=
  { baseState with
    CurrentBid := some cbTwo
    OtherTeamBidding := [(Team.DC, lowCustomBid)] }

/-- A custom raise of 0.75 by DC — exactly the schedule minimum at price 2. -/
def exactCustomBid : CompetitiveBidInfo :=
  { player := samplePlayer, team := Team.DC
    is_raise := true, is_normal := false, raised_amount := 0.75 }

/-- Witness state: current bid at 2.0, one proposed custom raise of exactly
the 0.75 minimum. -/
def stateExactRaise : AgentState :=
  { baseState with
    CurrentBid := some cbTwo
    OtherTeamBidding := [(Team.DC, exactCustomBid)] }

/-- A proposed bid that is not a raise at all. -/
def passBid : CompetitiveBidInfo :=
  { player := samplePlayer, team := Team.DC }

/-- Witness state: active lot, no current bid, a single invalid proposed
bid. -/
def stateInvalidBids : AgentState :=
  { baseState with OtherTeamBidding := [(Team.DC, passBid)] }

/-- A normal raise by DC. -/
def normalBid : CompetitiveBidInfo :=
  { player := samplePlayer, team := Team.DC
    is_raise := true, is_normal := true }

/-- A custom raise of 0.75 by GT. -/
def customBidGT : CompetitiveBidInfo :=
  { player := samplePlayer, team := Team.GT
    is_raise := true, is_normal := false, raised_amount := 0.75 }

/-- Witness state: current bid of 1, one normal raise (to 1.25) and one
custom raise (to 1.75) proposed simultaneously. -/
def stateTwoBids : AgentState :=
  { baseState with
    CurrentBid := some cbOne
    OtherTeamBidding := [(Team.DC, normalBid), (Team.GT, customBidGT)] }

/-- Witness state: no current bid yet, one normal first bid (at the base
price 1) and one custom first raise (to 1.75) proposed simultaneously. -/
def stateTwoFirstBids : AgentState :=
  { baseState with
    OtherTeamBidding := [(Team.DC, normalBid), (Team.GT, customBidGT)] }

/-- Witness state with a null lot context. -/
def stateNullPlayer : AgentState :=
  { baseState with CurrentPlayer := none }

end AuctionSim

attribute [local semireducible] Rat.add Rat.mul Rat.sub Rat.inv Rat.ofScientific

namespace AuctionSim

/-! ## Helper lemmas -/

theorem pickBest_nil : pickBest [] = none := rfl

theorem get_raise_amount_pos (p : ℚ) : 0 < get_raise_amount p := by
  unfold get_raise_amount
  split_ifs <;> norm_num

/-- The exhaustion test of `host` agrees with the spec's reading of it. -/
theorem exhausted_bool_iff (s : AgentState) :
    (s.RemainingSets.isEmpty && pyFalsyOptList s.RemainingPlayersInSet
        && s.CurrentPlayer.isNone) = true ↔
    (s.RemainingSets = [] ∧
      (s.RemainingPlayersInSet = none ∨ s.RemainingPlayersInSet = some []) ∧
      s.CurrentPlayer = none) := by
  rcases hR : s.RemainingPlayersInSet with _ | l
  · simp [pyFalsyOptList, List.isEmpty_iff, Option.isNone_iff_eq_none, and_assoc]
  · simp [pyFalsyOptList, List.isEmpty_iff, Option.isNone_iff_eq_none, and_assoc]

/-! ## C5: the router applies the ordered End / RequestLot / CollectBids rule -/

/-- C5: for every auction state, `host` selects its decision by the ordered
rule of spec section 4.4: End when categories, lots-in-category and the
active lot are all exhausted; otherwise RequestLot (host_assistant) when the
auction is inactive; otherwise CollectBids (bidder_pool). -/
theorem host_matches_spec_rule (s : AgentState) : host s = routerSpecRule s := by
  unfold host routerSpecRule
  by_cases hc : s.RemainingSets = [] ∧
      (s.RemainingPlayersInSet = none ∨ s.RemainingPlayersInSet = some []) ∧
      s.CurrentPlayer = none
  · rw [if_pos ((exhausted_bool_iff s).mpr hc), if_pos hc]
  · rw [if_neg (fun hb => hc ((exhausted_bool_iff s).mp hb)), if_neg hc]

/-! ## C6: the router is side-effect-free and deterministic -/

/-- C6: a `host` call leaves the state unchanged, and calling it twice in a
row on the same state yields the identical routing decision both times. -/
theorem host_idempotent_pure (s : AgentState) :
    (hostStep s).2 = s ∧
    (hostStep ((hostStep s).2)).1 = (hostStep s).1 ∧
    (hostStep s).1 = host s :=
  ⟨rfl, rfl, rfl⟩

/-! ## C7: no current bid and no proposed bids sends the lot to Unsold -/

/-- C7: with an active lot, no current bid and no proposed bids, the lot is
appended to UnsoldPlayers and the round state is reset: CurrentPlayer none,
CurrentBid none, Round 0, the bid dict cleared, the active flag false. -/
theorem trademaster_unsold_no_bids (reasoner) (s s' : AgentState) (p : Player)
    (hp : s.CurrentPlayer = some p) (hcb : s.CurrentBid = none)
    (hob : s.OtherTeamBidding = [])
    (h : trademaster reasoner (some s) = .ok s') :
    s'.UnsoldPlayers = s.UnsoldPlayers ++ [p] ∧
    s'.CurrentPlayer = none ∧
    s'.CurrentBid = none ∧
    s'.Round = 0 ∧
    s'.OtherTeamBidding = [] ∧
    s'.AuctionStatus = false := by
  simp only [trademaster, hp, hcb, hob] at h
  injection h with h
  subst h
  exact ⟨rfl, rfl, rfl, rfl, rfl, rfl⟩

theorem trademaster_unsold_no_bids_witness :
    (runTM baseState).UnsoldPlayers = baseState.UnsoldPlayers ++ [samplePlayer] ∧
    (runTM baseState).CurrentPlayer = none ∧
    (runTM baseState).CurrentBid = none ∧
    (runTM baseState).Round = 0 ∧
    (runTM baseState).OtherTeamBidding = [] ∧
    (runTM baseState).AuctionStatus = false :=
  trademaster_unsold_no_bids rNone baseState (runTM baseState) samplePlayer
    rfl rfl rfl rfl

/-! ## C9: a null lot context does not raise — the call returns normally -/

/-- C9 counterexample: called on a concrete non-empty state whose
CurrentPlayer is None, `trademaster` returns normally (an `ok` result with
only the message log changed); it does not raise. -/
theorem trademaster_null_lot_returns_normally :
    trademaster rNone (some stateNullPlayer) =
      Except.ok { stateNullPlayer with Messages := [trademasterLog] } := rfl

/-- C9 amended: with a non-empty state whose CurrentPlayer is None,
`trademaster` returns the state normally, only replacing the message log;
the fail-fast ValueError fires only for a falsy (None or empty) state
argument. -/
theorem trademaster_null_lot_graceful (reasoner) (s : AgentState)
    (hp : s.CurrentPlayer = none) :
    trademaster reasoner (some s) = .ok { s with Messages := [trademasterLog] } ∧
    trademaster reasoner none = .error "State cannot be None or empty." := by
  refine ⟨?_, rfl⟩
  simp only [trademaster, hp]

theorem trademaster_null_lot_graceful_witness :
    trademaster rNone (some stateNullPlayer) =
      .ok { stateNullPlayer with Messages := [trademasterLog] } ∧
    trademaster rNone none = .error "State cannot be None or empty." :=
  trademaster_null_lot_graceful rNone stateNullPlayer rfl

/-! ## C2: rounds with a current bid and no proposed bids -/

/-- C2: with an active lot, an existing current bid and no proposed bids,
the round counter increases by exactly 1 and the current bid is unchanged,
unless the incremented counter exceeds the limit of 2, in which case the
lot is finalized to the current-bid holder: marked sold at the bid amount,
appended to the holder's holdings, the holder's budget debited, and the
round state (CurrentPlayer, CurrentBid, Round, active flag) reset. -/
theorem trademaster_no_new_bids_round (reasoner) (s s' : AgentState)
    (p : Player) (cb : CurrentBidInfo)
    (hp : s.CurrentPlayer = some p) (hcb : s.CurrentBid = some cb)
    (hob : s.OtherTeamBidding = [])
    (h : trademaster reasoner (some s) = .ok s') :
    (s.Round + 1 ≤ 2 →
      s'.Round = s.Round + 1 ∧ s'.CurrentBid = s.CurrentBid ∧
      s'.OtherTeamBidding = []) ∧
    (2 < s.Round + 1 →
      ∃ soldP : Player,
        soldP.name = p.name ∧ soldP.status = true ∧
        soldP.sold_price = cb.current_bid_amount ∧
        soldP.sold_team = some cb.team ∧
        s'.holdings cb.team = s.holdings cb.team ++ [soldP] ∧
        s'.budgets cb.team = s.budgets cb.team - cb.current_bid_amount ∧
        s'.CurrentPlayer = none ∧ s'.CurrentBid = none ∧ s'.Round = 0 ∧
        s'.OtherTeamBidding = [] ∧ s'.AuctionStatus = false) := by
  simp only [trademaster, hp, hcb, hob] at h
  by_cases hr : s.Round + 1 > 2
  · rw [if_pos hr] at h
    injection h with h
    subst h
    refine ⟨fun hle => absurd hr (by omega), fun _ => ?_⟩
    refine ⟨{ p with
        status := true
        sold_price := cb.current_bid_amount
        sold_team := some cb.team
        reason_for_purchase :=
          match reasoner s p cb.team cb.current_bid_amount with
          | some txt => some txt
          | none => p.reason_for_purchase },
      rfl, rfl, rfl, rfl, ?_, ?_, rfl, rfl, rfl, rfl, rfl⟩
    · simp [finalizeSale]
    · simp [finalizeSale]
  · rw [if_neg hr] at h
    injection h with h
    subst h
    exact ⟨fun _ => ⟨rfl, hcb.symm, rfl⟩, fun hgt => absurd hgt hr⟩

theorem trademaster_no_new_bids_round_witness :
    (stateNoBids.Round + 1 ≤ 2 →
      (runTM stateNoBids).Round = stateNoBids.Round + 1 ∧
      (runTM stateNoBids).CurrentBid = stateNoBids.CurrentBid ∧
      (runTM stateNoBids).OtherTeamBidding = []) ∧
    (2 < stateNoBids.Round + 1 →
      ∃ soldP : Player,
        soldP.name = samplePlayer.name ∧ soldP.status = true ∧
        soldP.sold_price = cbTen.current_bid_amount ∧
        soldP.sold_team = some cbTen.team ∧
        (runTM stateNoBids).holdings cbTen.team =
          stateNoBids.holdings cbTen.team ++ [soldP] ∧
        (runTM stateNoBids).budgets cbTen.team =
          stateNoBids.budgets cbTen.team - cbTen.current_bid_amount ∧
        (runTM stateNoBids).CurrentPlayer = none ∧
        (runTM stateNoBids).CurrentBid = none ∧
        (runTM stateNoBids).Round = 0 ∧
        (runTM stateNoBids).OtherTeamBidding = [] ∧
        (runTM stateNoBids).AuctionStatus = false) :=
  trademaster_no_new_bids_round rNone stateNoBids (runTM stateNoBids)
    samplePlayer cbTen rfl rfl rfl rfl

/-! ## C3: the raise band at a current bid of exactly 2.0 -/

/-- C3 counterexample: at a current price of exactly 2.0 the raise schedule
returns 0.75, not the 0.25 the claim asserts (the band giving 0.25 is the
strict `price < 2.0` band). -/
theorem raise_schedule_at_two :
    get_raise_amount 2 = 0.75 ∧ get_raise_amount 2 ≠ 0.25 := by
  constructor <;> decide

/-- C3 amended: with a current bid at 2.0 the minimum raise is 0.75 (not
0.25), and a proposed custom raise of 0.2 is rejected as below that
minimum, so the round counter increments and the current bid is
unchanged. -/
theorem trademaster_low_custom_raise_rejected (reasoner) (s s' : AgentState)
    (p : Player) (cb : CurrentBidInfo) (t : Team) (bid : CompetitiveBidInfo)
    (hp : s.CurrentPlayer = some p) (hcb : s.CurrentBid = some cb)
    (hamt : cb.current_bid_amount = 2)
    (hob : s.OtherTeamBidding = [(t, bid)])
    (hri : bid.is_raise = true) (hni : bid.is_normal = false)
    (hra : bid.raised_amount = 0.2)
    (hround : s.Round + 1 ≤ 2)
    (h : trademaster reasoner (some s) = .ok s') :
    get_raise_amount cb.current_bid_amount = 0.75 ∧
    s'.Round = s.Round + 1 ∧
    s'.CurrentBid = s.CurrentBid := by
  have hmin : get_raise_amount cb.current_bid_amount = 0.75 := by
    rw [hamt]; decide
  have hvalid : validBidsExisting s cb.current_bid_amount = [] := by
    rw [validBidsExisting, hob, hamt]
    simp only [List.filterMap_cons, List.filterMap_nil, hri, hni, hra]
    norm_num [get_raise_amount]
  simp only [trademaster, hp, hcb, hob] at h
  rw [hvalid, pickBest_nil] at h
  simp only [] at h
  rw [if_neg (by omega : ¬s.Round + 1 > 2)] at h
  injection h with h
  subst h
  exact ⟨hmin, rfl, hcb.symm⟩

theorem trademaster_low_custom_raise_rejected_witness :
    get_raise_amount cbTwo.current_bid_amount = 0.75 ∧
    (runTM stateLowRaise).Round = stateLowRaise.Round + 1 ∧
    (runTM stateLowRaise).CurrentBid = stateLowRaise.CurrentBid :=
  trademaster_low_custom_raise_rejected rNone stateLowRaise (runTM stateLowRaise)
    samplePlayer cbTwo Team.DC lowCustomBid rfl rfl rfl rfl rfl rfl rfl
    (by decide) rfl

/-! ## Candidate-filter characterizations -/

/-- Characterization of the candidate filter with an existing current bid. -/
theorem mem_validBidsExisting_iff (s : AgentState) (price : ℚ)
    (t : Team) (bid : CompetitiveBidInfo) (amt : ℚ) :
    (t, bid, amt) ∈ validBidsExisting s price ↔
    (t, bid) ∈ s.OtherTeamBidding ∧
    bid.is_raise = true ∧
    price < amt ∧ amt ≤ s.budgets t ∧
    ((bid.is_normal = true ∧ amt = price + get_raise_amount price) ∨
     (bid.is_normal = false ∧ bid.raised_amount ≠ 0 ∧
      get_raise_amount price ≤ bid.raised_amount ∧
      amt = price + bid.raised_amount)) := by
  rw [validBidsExisting, List.mem_filterMap]
  constructor
  · rintro ⟨⟨t', bid'⟩, hmem, hf⟩
    dsimp only at hf
    split at hf
    next bid_amount heq =>
      split at hf
      next hvc =>
        injection hf with h1
        injection h1 with ha hb
        injection hb with hb hc
        subst ha; subst hb; subst hc
        refine ⟨hmem, ?_⟩
        split at heq
        next hraise =>
          split at heq
          next hnorm =>
            injection heq with heq
            exact ⟨hraise, hvc.1, hvc.2, Or.inl ⟨hnorm, heq.symm⟩⟩
          next hnorm =>
            split at heq
            next hcust =>
              injection heq with heq
              exact ⟨hraise, hvc.1, hvc.2,
                Or.inr ⟨by simpa using hnorm, hcust.1, hcust.2, heq.symm⟩⟩
            next => exact absurd heq (by simp)
        next => exact absurd heq (by simp)
      next hvc => exact absurd hf (by simp)
    next heq => exact absurd hf (by simp)
  · rintro ⟨hmem, hri, hlt, hle, hcase⟩
    refine ⟨(t, bid), hmem, ?_⟩
    dsimp only
    rcases hcase with ⟨hn, hamt⟩ | ⟨hn, hnz, hge, hamt⟩
    · rw [hri, hn]
      simp only [if_true]
      rw [← hamt, if_pos ⟨hlt, hle⟩]
    · rw [hri, hn]
      simp only [if_true, Bool.false_eq_true, if_false]
      rw [if_pos ⟨hnz, hge⟩, ← hamt]
      exact if_pos ⟨hlt, hle⟩

/-- Characterization of the candidate filter with no current bid yet. -/
theorem mem_validBidsFirst_iff (s : AgentState) (price : ℚ)
    (t : Team) (bid : CompetitiveBidInfo) (amt : ℚ) :
    (t, bid, amt) ∈ validBidsFirst s price ↔
    (t, bid) ∈ s.OtherTeamBidding ∧
    bid.is_raise = true ∧
    price ≤ amt ∧ amt ≤ s.budgets t ∧
    ((bid.is_normal = true ∧ amt = price) ∨
     (bid.is_normal = false ∧ bid.raised_amount ≠ 0 ∧
      get_raise_amount price ≤ bid.raised_amount ∧
      amt = price + bid.raised_amount)) := by
  rw [validBidsFirst, List.mem_filterMap]
  constructor
  · rintro ⟨⟨t', bid'⟩, hmem, hf⟩
    dsimp only at hf
    split at hf
    next bid_amount heq =>
      split at hf
      next hvc =>
        injection hf with h1
        injection h1 with ha hb
        injection hb with hb hc
        subst ha; subst hb; subst hc
        refine ⟨hmem, ?_⟩
        split at heq
        next hraise =>
          split at heq
          next hnorm =>
            injection heq with heq
            exact ⟨hraise, hvc.1, hvc.2, Or.inl ⟨hnorm, heq.symm⟩⟩
          next hnorm =>
            split at heq
            next hcust =>
              injection heq with heq
              exact ⟨hraise, hvc.1, hvc.2,
                Or.inr ⟨by simpa using hnorm, hcust.1, hcust.2, heq.symm⟩⟩
            next => exact absurd heq (by simp)
        next => exact absurd heq (by simp)
      next hvc => exact absurd hf (by simp)
    next heq => exact absurd hf (by simp)
  · rintro ⟨hmem, hri, hlt, hle, hcase⟩
    refine ⟨(t, bid), hmem, ?_⟩
    dsimp only
    rcases hcase with ⟨hn, hamt⟩ | ⟨hn, hnz, hge, hamt⟩
    · subst hamt
      rw [hri, hn]
      simp only [if_true]
      exact if_pos ⟨hlt, hle⟩
    · rw [hri, hn]
      simp only [if_true, Bool.false_eq_true, if_false]
      rw [if_pos ⟨hnz, hge⟩, ← hamt]
      exact if_pos ⟨hlt, hle⟩

/-! ## C4: the custom-raise minimum threshold is a sharp boundary -/

/-- C4: a custom-raise bid (is_raise true, is_normal false) is accepted as
a candidate only if its raised amount is at least the schedule minimum for
the current price: strictly below the threshold it never enters the
candidate list, and exactly at the threshold it is accepted whenever the
resulting amount is within the bidder's budget (the strict-improvement
check then holds automatically because the minimum is positive). -/
theorem custom_raise_threshold (s : AgentState) (price : ℚ)
    (t : Team) (bid : CompetitiveBidInfo)
    (hri : bid.is_raise = true) (hni : bid.is_normal = false) :
    (bid.raised_amount < get_raise_amount price →
      ∀ amt, (t, bid, amt) ∉ validBidsExisting s price) ∧
    (bid.raised_amount = get_raise_amount price →
      (t, bid) ∈ s.OtherTeamBidding →
      price + bid.raised_amount ≤ s.budgets t →
      (t, bid, price + bid.raised_amount) ∈ validBidsExisting s price) := by
  constructor
  · intro hlt amt hmem
    rcases (mem_validBidsExisting_iff s price t bid amt).mp hmem with
      ⟨-, -, -, -, ⟨hn, -⟩ | ⟨-, -, hge, -⟩⟩
    · rw [hni] at hn; cases hn
    · exact absurd hge (not_le.mpr hlt)
  · intro heq hmem hbud
    have hpos : 0 < bid.raised_amount := by
      rw [heq]; exact get_raise_amount_pos price
    exact (mem_validBidsExisting_iff s price t bid _).mpr
      ⟨hmem, hri, lt_add_of_pos_right price hpos, hbud,
        Or.inr ⟨hni, ne_of_gt hpos, le_of_eq heq.symm, rfl⟩⟩

theorem custom_raise_threshold_witness :
    (exactCustomBid.raised_amount < get_raise_amount cbTwo.current_bid_amount →
      ∀ amt, (Team.DC, exactCustomBid, amt) ∉
        validBidsExisting stateExactRaise cbTwo.current_bid_amount) ∧
    (exactCustomBid.raised_amount = get_raise_amount cbTwo.current_bid_amount →
      (Team.DC, exactCustomBid) ∈ stateExactRaise.OtherTeamBidding →
      cbTwo.current_bid_amount + exactCustomBid.raised_amount ≤
        stateExactRaise.budgets Team.DC →
      (Team.DC, exactCustomBid,
        cbTwo.current_bid_amount + exactCustomBid.raised_amount) ∈
        validBidsExisting stateExactRaise cbTwo.current_bid_amount) :=
  custom_raise_threshold stateExactRaise cbTwo.current_bid_amount Team.DC
    exactCustomBid rfl rfl

/-! ## C10: a round of only-invalid first bids changes nothing but the bid
dict and the log -/

/-- C10: with an active lot, no current bid, and a non-empty proposed-bid
dict in which no bid is a valid candidate, every field except the bid dict
and the message log is unchanged: the round counter is untouched, no
current bid is created, the lot stays active and is not moved to Unsold,
and no holdings or budgets change; only the bid dict is cleared. -/
theorem trademaster_no_valid_first_bids_frame (reasoner) (s s' : AgentState)
    (p : Player)
    (hp : s.CurrentPlayer = some p) (hcb : s.CurrentBid = none)
    (hob : s.OtherTeamBidding ≠ [])
    (hact : s.AuctionStatus = true)
    (hnov : validBidsFirst s p.base_price = [])
    (h : trademaster reasoner (some s) = .ok s') :
    s'.Round = s.Round ∧ s'.CurrentBid = none ∧ s'.CurrentPlayer = some p ∧
    s'.UnsoldPlayers = s.UnsoldPlayers ∧ s'.holdings = s.holdings ∧
    s'.budgets = s.budgets ∧ s'.AuctionStatus = true ∧
    s'.RemainingSets = s.RemainingSets ∧
    s'.RemainingPlayersInSet = s.RemainingPlayersInSet ∧
    s'.OtherTeamBidding = [] := by
  rcases hoc : s.OtherTeamBidding with _ | ⟨e, rest⟩
  · exact absurd hoc hob
  · simp only [trademaster, hp, hcb, hoc, hnov, pickBest_nil] at h
    injection h with h
    subst h
    exact ⟨rfl, rfl, rfl, rfl, rfl, rfl, hact, rfl, rfl, rfl⟩

theorem trademaster_no_valid_first_bids_frame_witness :
    (runTM stateInvalidBids).Round = stateInvalidBids.Round ∧
    (runTM stateInvalidBids).CurrentBid = none ∧
    (runTM stateInvalidBids).CurrentPlayer = some samplePlayer ∧
    (runTM stateInvalidBids).UnsoldPlayers = stateInvalidBids.UnsoldPlayers ∧
    (runTM stateInvalidBids).holdings = stateInvalidBids.holdings ∧
    (runTM stateInvalidBids).budgets = stateInvalidBids.budgets ∧
    (runTM stateInvalidBids).AuctionStatus = true ∧
    (runTM stateInvalidBids).RemainingSets = stateInvalidBids.RemainingSets ∧
    (runTM stateInvalidBids).RemainingPlayersInSet =
      stateInvalidBids.RemainingPlayersInSet ∧
    (runTM stateInvalidBids).OtherTeamBidding = [] :=
  trademaster_no_valid_first_bids_frame rNone stateInvalidBids
    (runTM stateInvalidBids) samplePlayer rfl rfl (List.cons_ne_nil _ _)
    rfl rfl rfl

/-! ## C1: budgets never go negative through finalization -/

/-- C1: the adjudicator's own validation only ever admits candidates within
the bidder's budget (first two conjuncts), and a finalize performed on a
state whose current bid is within the holder's budget debits exactly the
final price from the winner and leaves every budget non-negative; any call
either leaves all budgets unchanged or debits only the current-bid holder
by the current-bid amount (last two conjuncts). -/
theorem trademaster_budget_safety (reasoner) (s s' : AgentState)
    (hnn : ∀ t, 0 ≤ s.budgets t)
    (hval : ∀ cb, s.CurrentBid = some cb →
      cb.current_bid_amount ≤ s.budgets cb.team)
    (h : trademaster reasoner (some s) = .ok s') :
    (∀ price t bid amt, (t, bid, amt) ∈ validBidsFirst s price →
      amt ≤ s.budgets t) ∧
    (∀ price t bid amt, (t, bid, amt) ∈ validBidsExisting s price →
      amt ≤ s.budgets t) ∧
    (∀ t, 0 ≤ s'.budgets t) ∧
    (∀ t, s'.budgets t = s.budgets t ∨
      ∃ cb, s.CurrentBid = some cb ∧ t = cb.team ∧
        s'.budgets t = s.budgets t - cb.current_bid_amount) := by
  have hshape : s'.budgets = s.budgets ∨
      ∃ cb, s.CurrentBid = some cb ∧
        s'.budgets = fun t =>
          if t = cb.team then s.budgets t - cb.current_bid_amount
          else s.budgets t := by
    cases hp : s.CurrentPlayer with
    | none =>
      simp only [trademaster, hp] at h
      injection h with h; subst h; left; rfl
    | some p =>
      cases hcb : s.CurrentBid with
      | none =>
        cases hob : s.OtherTeamBidding with
        | nil =>
          simp only [trademaster, hp, hcb, hob] at h
          injection h with h; subst h; left; rfl
        | cons e rest =>
          simp only [trademaster, hp, hcb, hob] at h
          rcases hpk : pickBest (validBidsFirst s p.base_price) with
              _ | ⟨bt, bb, ba⟩ <;>
              simp only [hpk] at h <;>
            · injection h with h; subst h; left; rfl
      | some cb =>
        cases hob : s.OtherTeamBidding with
        | nil =>
          simp only [trademaster, hp, hcb, hob] at h
          by_cases hr : s.Round + 1 > 2
          · rw [if_pos hr] at h
            injection h with h; subst h
            exact Or.inr ⟨cb, rfl, rfl⟩
          · rw [if_neg hr] at h
            injection h with h; subst h; left; rfl
        | cons e rest =>
          simp only [trademaster, hp, hcb, hob] at h
          rcases hpk : pickBest (validBidsExisting s cb.current_bid_amount) with
              _ | ⟨bt, bb, ba⟩ <;>
            simp only [hpk] at h
          · by_cases hr : s.Round + 1 > 2
            · rw [if_pos hr] at h
              injection h with h; subst h
              exact Or.inr ⟨cb, rfl, rfl⟩
            · rw [if_neg hr] at h
              injection h with h; subst h; left; rfl
          · injection h with h; subst h; left; rfl
  refine ⟨?_, ?_, ?_, ?_⟩
  · intro price t bid amt hmem
    exact ((mem_validBidsFirst_iff s price t bid amt).mp hmem).2.2.2.1
  · intro price t bid amt hmem
    exact ((mem_validBidsExisting_iff s price t bid amt).mp hmem).2.2.2.1
  · rcases hshape with hsb | ⟨cb, hcb, hsb⟩
    · intro t; rw [hsb]; exact hnn t
    · intro t
      rw [hsb]
      show 0 ≤ if t = cb.team then s.budgets t - cb.current_bid_amount
        else s.budgets t
      by_cases ht : t = cb.team
      · subst ht
        rw [if_pos rfl]
        exact sub_nonneg.mpr (hval cb hcb)
      · rw [if_neg ht]
        exact hnn t
  · rcases hshape with hsb | ⟨cb, hcb, hsb⟩
    · intro t; exact Or.inl (by rw [hsb])
    · intro t
      by_cases ht : t = cb.team
      · refine Or.inr ⟨cb, hcb, ht, ?_⟩
        rw [hsb]
        show (if t = cb.team then s.budgets t - cb.current_bid_amount
          else s.budgets t) = _
        rw [if_pos ht]
      · refine Or.inl ?_
        rw [hsb]
        show (if t = cb.team then s.budgets t - cb.current_bid_amount
          else s.budgets t) = _
        rw [if_neg ht]

theorem trademaster_budget_safety_witness :
    (∀ price t bid amt, (t, bid, amt) ∈ validBidsFirst stateNoBids price →
      amt ≤ stateNoBids.budgets t) ∧
    (∀ price t bid amt, (t, bid, amt) ∈ validBidsExisting stateNoBids price →
      amt ≤ stateNoBids.budgets t) ∧
    (∀ t, 0 ≤ (runTM stateNoBids).budgets t) ∧
    (∀ t, (runTM stateNoBids).budgets t = stateNoBids.budgets t ∨
      ∃ cb, stateNoBids.CurrentBid = some cb ∧ t = cb.team ∧
        (runTM stateNoBids).budgets t =
          stateNoBids.budgets t - cb.current_bid_amount) :=
  trademaster_budget_safety rNone stateNoBids (runTM stateNoBids)
    (by decide)
    (fun cb hcb => by injection hcb with hcb; subst hcb; decide)
    rfl

/-! ## Winner-selection loops: specifications -/

theorem pickAnyBest_acc_spec (l : List (Team × CompetitiveBidInfo × ℚ))
    (a : Team × CompetitiveBidInfo × ℚ) :
    ∃ b, pickAnyBest l (some a) = some b ∧ (b = a ∨ b ∈ l) ∧
      a.2.2 ≤ b.2.2 ∧ ∀ e ∈ l, e.2.2 ≤ b.2.2 := by
  induction l generalizing a with
  | nil => exact ⟨a, rfl, Or.inl rfl, le_refl _, by simp⟩
  | cons e l ih =>
    rw [pickAnyBest, List.foldl_cons]
    by_cases hgt : e.2.2 > a.2.2
    · rw [show pickStep (some a) e = some e from by
        simp only [pickStep]; exact if_pos hgt]
      obtain ⟨b, hb, hmem, hle, hall⟩ := ih e
      refine ⟨b, hb, ?_, le_trans (le_of_lt hgt) hle, ?_⟩
      · rcases hmem with rfl | hmem
        · exact Or.inr (List.mem_cons_self _ _)
        · exact Or.inr (List.mem_cons_of_mem _ hmem)
      · intro x hx
        rcases List.mem_cons.mp hx with rfl | hx
        · exact hle
        · exact hall x hx
    · rw [show pickStep (some a) e = some a from by
        simp only [pickStep]; exact if_neg hgt]
      obtain ⟨b, hb, hmem, hle, hall⟩ := ih a
      refine ⟨b, hb, ?_, hle, ?_⟩
      · rcases hmem with rfl | hmem
        · exact Or.inl rfl
        · exact Or.inr (List.mem_cons_of_mem _ hmem)
      · intro x hx
        rcases List.mem_cons.mp hx with rfl | hx
        · exact le_trans (not_lt.mp hgt) hle
        · exact hall x hx

theorem pickAnyBest_spec (l : List (Team × CompetitiveBidInfo × ℚ))
    (hl : l ≠ []) :
    ∃ b, pickAnyBest l none = some b ∧ b ∈ l ∧ ∀ e ∈ l, e.2.2 ≤ b.2.2 := by
  cases l with
  | nil => exact absurd rfl hl
  | cons e l =>
    obtain ⟨b, hb, hmem, hle, hall⟩ := pickAnyBest_acc_spec l e
    refine ⟨b, ?_, ?_, ?_⟩
    · rw [pickAnyBest, List.foldl_cons]
      exact hb
    · rcases hmem with rfl | hmem
      · exact List.mem_cons_self _ _
      · exact List.mem_cons_of_mem _ hmem
    · intro x hx
      rcases List.mem_cons.mp hx with rfl | hx
      · exact hle
      · exact hall x hx

theorem pickCustomBest_eq_filter (l : List (Team × CompetitiveBidInfo × ℚ))
    (acc : Option (Team × CompetitiveBidInfo × ℚ)) :
    pickCustomBest l acc =
      pickAnyBest (l.filter fun e => !e.2.1.is_normal) acc := by
  induction l generalizing acc with
  | nil => rfl
  | cons e l ih =>
    rw [pickCustomBest, List.foldl_cons, List.filter_cons]
    by_cases hn : e.2.1.is_normal = true
    · rw [if_pos hn, if_neg (by simp [hn])]
      exact ih acc
    · rw [if_neg hn, if_pos (by simpa using hn)]
      rw [pickAnyBest, List.foldl_cons]
      exact ih (pickStep acc e)

theorem pickBest_custom_spec (l : List (Team × CompetitiveBidInfo × ℚ))
    (hex : ∃ e ∈ l, e.2.1.is_normal = false) :
    ∃ b, pickBest l = some b ∧ b ∈ l ∧ b.2.1.is_normal = false ∧
      ∀ e ∈ l, e.2.1.is_normal = false → e.2.2 ≤ b.2.2 := by
  obtain ⟨e0, he0, hn0⟩ := hex
  have hfne : (l.filter fun e => !e.2.1.is_normal) ≠ [] :=
    List.ne_nil_of_mem (List.mem_filter.mpr ⟨he0, by simp [hn0]⟩)
  obtain ⟨b, hb, hmem, hall⟩ := pickAnyBest_spec _ hfne
  have hbl := List.mem_filter.mp hmem
  refine ⟨b, ?_, hbl.1, by simpa using hbl.2, ?_⟩
  · rw [pickBest, pickCustomBest_eq_filter, hb]
  · intro x hx hxn
    exact hall x (List.mem_filter.mpr ⟨hx, by simp [hxn]⟩)

theorem pickBest_all_normal_spec (l : List (Team × CompetitiveBidInfo × ℚ))
    (hn : ∀ e ∈ l, e.2.1.is_normal = true) (hne : l ≠ []) :
    ∃ b, pickBest l = some b ∧ b ∈ l ∧ ∀ e ∈ l, e.2.2 ≤ b.2.2 := by
  have hfil : (l.filter fun e => !e.2.1.is_normal) = [] := by
    rw [List.filter_eq_nil_iff]
    intro a ha
    simp [hn a ha]
  obtain ⟨b, hb, hmem, hmax⟩ := pickAnyBest_spec l hne
  refine ⟨b, ?_, hmem, hmax⟩
  rw [pickBest, pickCustomBest_eq_filter, hfil]
  exact hb

/-! ## C8: custom raises always beat normal raises -/

/-- C8: in every round with proposed bids — whether a current bid exists
(the floor is the current amount, loop at trade_master.py lines 244-263) or
not (the floor is the base price, loop at lines 166-185) — whenever the
surviving candidate set contains a custom raise, the adjudicator's winner
is a custom raise of maximal amount among the custom raises, regardless of
any normal raise's amount or of processing order; only when every surviving
candidate is a normal raise is the winner the highest-amount candidate. -/
theorem trademaster_prefers_custom_raise (reasoner) (s s' : AgentState)
    (p : Player)
    (hp : s.CurrentPlayer = some p)
    (hob : s.OtherTeamBidding ≠ [])
    (h : trademaster reasoner (some s) = .ok s') :
    (∀ cb, s.CurrentBid = some cb →
      ((∃ e ∈ validBidsExisting s cb.current_bid_amount,
          e.2.1.is_normal = false) →
        ∃ b ∈ validBidsExisting s cb.current_bid_amount,
          b.2.1.is_normal = false ∧
          (∀ e ∈ validBidsExisting s cb.current_bid_amount,
            e.2.1.is_normal = false → e.2.2 ≤ b.2.2) ∧
          s'.CurrentBid = some
            { player := p, team := b.1, current_bid_amount := b.2.2,
              current_raise_amount := get_raise_amount b.2.2 }) ∧
      ((∀ e ∈ validBidsExisting s cb.current_bid_amount,
          e.2.1.is_normal = true) →
        validBidsExisting s cb.current_bid_amount ≠ [] →
        ∃ b ∈ validBidsExisting s cb.current_bid_amount,
          (∀ e ∈ validBidsExisting s cb.current_bid_amount, e.2.2 ≤ b.2.2) ∧
          s'.CurrentBid = some
            { player := p, team := b.1, current_bid_amount := b.2.2,
              current_raise_amount := get_raise_amount b.2.2 })) ∧
    (s.CurrentBid = none →
      ((∃ e ∈ validBidsFirst s p.base_price,
          e.2.1.is_normal = false) →
        ∃ b ∈ validBidsFirst s p.base_price,
          b.2.1.is_normal = false ∧
          (∀ e ∈ validBidsFirst s p.base_price,
            e.2.1.is_normal = false → e.2.2 ≤ b.2.2) ∧
          s'.CurrentBid = some
            { player := p, team := b.1, current_bid_amount := b.2.2,
              current_raise_amount := get_raise_amount b.2.2 }) ∧
      ((∀ e ∈ validBidsFirst s p.base_price,
          e.2.1.is_normal = true) →
        validBidsFirst s p.base_price ≠ [] →
        ∃ b ∈ validBidsFirst s p.base_price,
          (∀ e ∈ validBidsFirst s p.base_price, e.2.2 ≤ b.2.2) ∧
          s'.CurrentBid = some
            { player := p, team := b.1, current_bid_amount := b.2.2,
              current_raise_amount := get_raise_amount b.2.2 })) := by
  rcases hoc : s.OtherTeamBidding with _ | ⟨e0, rest⟩
  · exact absurd hoc hob
  constructor
  · intro cb hcb
    constructor
    · intro hex
      obtain ⟨⟨bt, bb, ba⟩, hpk, hbmem, hbn, hmax⟩ := pickBest_custom_spec _ hex
      simp only [trademaster, hp, hcb, hoc, hpk] at h
      injection h with h; subst h
      exact ⟨(bt, bb, ba), hbmem, hbn, hmax, rfl⟩
    · intro halln hne
      obtain ⟨⟨bt, bb, ba⟩, hpk, hbmem, hmax⟩ :=
        pickBest_all_normal_spec _ halln hne
      simp only [trademaster, hp, hcb, hoc, hpk] at h
      injection h with h; subst h
      exact ⟨(bt, bb, ba), hbmem, hmax, rfl⟩
  · intro hcb
    constructor
    · intro hex
      obtain ⟨⟨bt, bb, ba⟩, hpk, hbmem, hbn, hmax⟩ := pickBest_custom_spec _ hex
      simp only [trademaster, hp, hcb, hoc, hpk] at h
      injection h with h; subst h
      exact ⟨(bt, bb, ba), hbmem, hbn, hmax, rfl⟩
    · intro halln hne
      obtain ⟨⟨bt, bb, ba⟩, hpk, hbmem, hmax⟩ :=
        pickBest_all_normal_spec _ halln hne
      simp only [trademaster, hp, hcb, hoc, hpk] at h
      injection h with h; subst h
      exact ⟨(bt, bb, ba), hbmem, hmax, rfl⟩

theorem trademaster_prefers_custom_raise_witness :
    ((∀ cb, stateTwoBids.CurrentBid = some cb →
      ((∃ e ∈ validBidsExisting stateTwoBids cb.current_bid_amount,
          e.2.1.is_normal = false) →
        ∃ b ∈ validBidsExisting stateTwoBids cb.current_bid_amount,
          b.2.1.is_normal = false ∧
          (∀ e ∈ validBidsExisting stateTwoBids cb.current_bid_amount,
            e.2.1.is_normal = false → e.2.2 ≤ b.2.2) ∧
          (runTM stateTwoBids).CurrentBid = some
            { player := samplePlayer, team := b.1, current_bid_amount := b.2.2,
              current_raise_amount := get_raise_amount b.2.2 }) ∧
      ((∀ e ∈ validBidsExisting stateTwoBids cb.current_bid_amount,
          e.2.1.is_normal = true) →
        validBidsExisting stateTwoBids cb.current_bid_amount ≠ [] →
        ∃ b ∈ validBidsExisting stateTwoBids cb.current_bid_amount,
          (∀ e ∈ validBidsExisting stateTwoBids cb.current_bid_amount, e.2.2 ≤ b.2.2) ∧
          (runTM stateTwoBids).CurrentBid = some
            { player := samplePlayer, team := b.1, current_bid_amount := b.2.2,
              current_raise_amount := get_raise_amount b.2.2 })) ∧
    (stateTwoBids.CurrentBid = none →
      ((∃ e ∈ validBidsFirst stateTwoBids samplePlayer.base_price,
          e.2.1.is_normal = false) →
        ∃ b ∈ validBidsFirst stateTwoBids samplePlayer.base_price,
          b.2.1.is_normal = false ∧
          (∀ e ∈ validBidsFirst stateTwoBids samplePlayer.base_price,
            e.2.1.is_normal = false → e.2.2 ≤ b.2.2) ∧
          (runTM stateTwoBids).CurrentBid = some
            { player := samplePlayer, team := b.1, current_bid_amount := b.2.2,
              current_raise_amount := get_raise_amount b.2.2 }) ∧
      ((∀ e ∈ validBidsFirst stateTwoBids samplePlayer.base_price,
          e.2.1.is_normal = true) →
        validBidsFirst stateTwoBids samplePlayer.base_price ≠ [] →
        ∃ b ∈ validBidsFirst stateTwoBids samplePlayer.base_price,
          (∀ e ∈ validBidsFirst stateTwoBids samplePlayer.base_price, e.2.2 ≤ b.2.2) ∧
          (runTM stateTwoBids).CurrentBid = some
            { player := samplePlayer, team := b.1, current_bid_amount := b.2.2,
              current_raise_amount := get_raise_amount b.2.2 }))) ∧
    ((∀ cb, stateTwoFirstBids.CurrentBid = some cb →
      ((∃ e ∈ validBidsExisting stateTwoFirstBids cb.current_bid_amount,
          e.2.1.is_normal = false) →
        ∃ b ∈ validBidsExisting stateTwoFirstBids cb.current_bid_amount,
          b.2.1.is_normal = false ∧
          (∀ e ∈ validBidsExisting stateTwoFirstBids cb.current_bid_amount,
            e.2.1.is_normal = false → e.2.2 ≤ b.2.2) ∧
          (runTM stateTwoFirstBids).CurrentBid = some
            { player := samplePlayer, team := b.1, current_bid_amount := b.2.2,
              current_raise_amount := get_raise_amount b.2.2 }) ∧
      ((∀ e ∈ validBidsExisting stateTwoFirstBids cb.current_bid_amount,
          e.2.1.is_normal = true) →
        validBidsExisting stateTwoFirstBids cb.current_bid_amount ≠ [] →
        ∃ b ∈ validBidsExisting stateTwoFirstBids cb.current_bid_amount,
          (∀ e ∈ validBidsExisting stateTwoFirstBids cb.current_bid_amount, e.2.2 ≤ b.2.2) ∧
          (runTM stateTwoFirstBids).CurrentBid = some
            { player := samplePlayer, team := b.1, current_bid_amount := b.2.2,
              current_raise_amount := get_raise_amount b.2.2 })) ∧
    (stateTwoFirstBids.CurrentBid = none →
      ((∃ e ∈ validBidsFirst stateTwoFirstBids samplePlayer.base_price,
          e.2.1.is_normal = false) →
        ∃ b ∈ validBidsFirst stateTwoFirstBids samplePlayer.base_price,
          b.2.1.is_normal = false ∧
          (∀ e ∈ validBidsFirst stateTwoFirstBids samplePlayer.base_price,
            e.2.1.is_normal = false → e.2.2 ≤ b.2.2) ∧
          (runTM stateTwoFirstBids).CurrentBid = some
            { player := samplePlayer, team := b.1, current_bid_amount := b.2.2,
              current_raise_amount := get_raise_amount b.2.2 }) ∧
      ((∀ e ∈ validBidsFirst stateTwoFirstBids samplePlayer.base_price,
          e.2.1.is_normal = true) →
        validBidsFirst stateTwoFirstBids samplePlayer.base_price ≠ [] →
        ∃ b ∈ validBidsFirst stateTwoFirstBids samplePlayer.base_price,
          (∀ e ∈ validBidsFirst stateTwoFirstBids samplePlayer.base_price, e.2.2 ≤ b.2.2) ∧
          (runTM stateTwoFirstBids).CurrentBid = some
            { player := samplePlayer, team := b.1, current_bid_amount := b.2.2,
              current_raise_amount := get_raise_amount b.2.2 }))) :=
  ⟨trademaster_prefers_custom_raise rNone stateTwoBids (runTM stateTwoBids)
      samplePlayer rfl (List.cons_ne_nil _ _) rfl,
    trademaster_prefers_custom_raise rNone stateTwoFirstBids
      (runTM stateTwoFirstBids) samplePlayer rfl (List.cons_ne_nil _ _) rfl⟩

end AuctionSim
